import Mathlib

/- Formal model of src/gpx_per_day.py (repository billallen256/photography).

   The script splits one large GPX tracklog into per-session GPX files.  We
   shallowly embed its data and control flow:

   * XML element trees (xml.etree.ElementTree) become the inductive `Elem`;
     `find` with the namespace dictionary becomes `findChild` on a
     Clark-notation qualified tag built by `qual`.
   * Python `datetime` values become integer seconds on a linear timeline
     (the conversion between civil dates and day numbers uses the standard
     civil-calendar algorithms, written with floor division).  `timedelta`
     arithmetic is exact integer arithmetic, as in Python.
   * `float` coordinate values become rationals; the external
     `georgio.great_circle_distance` function (a library import, not code of
     this repository) is a parameter of every definition that calls it.
   * Python exceptions become the `Err` type; a function that can raise
     returns `Except Err` or `Option`.
   * The filesystem seen by `Path.exists` / `write_bytes` becomes the list
     of used path strings threaded through the run. -/

namespace Gpx

/-! Decimal digits and number formatting (models Python str(int) and the
    fixed-width strftime fields). -/

/-- Value of a decimal digit character. -/
def dvN (c : Char) : Nat := c.toNat - 48

/-- Decimal digits, least significant first, with structural fuel so that the
    definition reduces by rfl; the fuel bounds the digit count. -/
def natDigitsRevFuel : Nat → Nat → List Nat
  | 0, _ => []
  | fuel + 1, n => if n = 0 then [] else n % 10 :: natDigitsRevFuel fuel (n / 10)

/-- Decimal digits of n, least significant first. -/
def natDigitsRev (n : Nat) : List Nat := natDigitsRevFuel n n

/-- Value of a least-significant-first digit list. -/
def valRev : List Nat → Nat
  | [] => 0
  | d :: ds => d + 10 * valRev ds

/-- Decimal string of a natural number, as Python str(int) renders a
    nonnegative int. -/
def natToStr (n : Nat) : String :=
  if n = 0 then "0" else String.mk (((natDigitsRev n).reverse).map Nat.digitChar)

/-- Left-pad with zeros to the given width (models the zero-padded strftime
    and isoformat fields). -/
def padNat (w n : Nat) : String :=
  String.mk (List.replicate (w - (natToStr n).length) '0') ++ natToStr n

/-! Civil calendar on an integer timeline whose origin is 1970-01-01T00:00:00.
    The two conversions are the standard civil-from-days / days-from-civil
    algorithms stated with floor division.  They are used by the embedding
    only at concrete inputs. -/

/-- Leap year test of the Gregorian calendar (as datetime uses). -/
def isLeap (y : Int) : Bool :=
  (Int.emod y 4 == 0 && Int.emod y 100 != 0) || Int.emod y 400 == 0

/-- Days in a month, as datetime validates them. -/
def daysInMonth (y m : Int) : Int :=
  if m = 2 then (if isLeap y then 29 else 28)
  else if m = 4 ∨ m = 6 ∨ m = 9 ∨ m = 11 then 30
  else 31

/-- Day number of a civil date, 1970-01-01 being day 0. -/
def daysFromCivil (y m d : Int) : Int :=
  let y2 : Int := if m ≤ 2 then y - 1 else y
  let era : Int := Int.fdiv y2 400
  let yoe : Int := y2 - era * 400
  let mp : Int := Int.emod (m + 9) 12
  let doy : Int := Int.fdiv (153 * mp + 2) 5 + d - 1
  let doe : Int := yoe * 365 + Int.fdiv yoe 4 - Int.fdiv yoe 100 + doy
  era * 146097 + doe - 719468

/-- Civil date (year, month, day) of a day number, 1970-01-01 being day 0. -/
def civilFromDays (z0 : Int) : Int × Int × Int :=
  let z : Int := z0 + 719468
  let era : Int := Int.fdiv z 146097
  let doe : Int := z - era * 146097
  let yoe : Int :=
    Int.fdiv (doe - Int.fdiv doe 1460 + Int.fdiv doe 36524 - Int.fdiv doe 146096) 365
  let y : Int := yoe + era * 400
  let doy : Int := doe - (365 * yoe + Int.fdiv yoe 4 - Int.fdiv yoe 100)
  let mp : Int := Int.fdiv (5 * doy + 2) 153
  let d : Int := doy - Int.fdiv (153 * mp + 2) 5 + 1
  let m : Int := mp + (if mp < 10 then 3 else -9)
  (if m ≤ 2 then y + 1 else y, m, d)

/-- Civil date of a timestamp in seconds (the .year/.month/.day fields of the
    corresponding datetime). -/
def dateOfSecs (t : Int) : Int × Int × Int := civilFromDays (Int.fdiv t 86400)

/-- strftime %Y%m%d of a date triple. -/
def fmtYmd : Int × Int × Int → String
  | (y, m, d) => padNat 4 y.toNat ++ padNat 2 m.toNat ++ padNat 2 d.toNat

/-- Python str() rendering of a whole-second datetime
    (YYYY-MM-DD HH:MM:SS). -/
def fmtPyDateTime (t : Int) : String :=
  let r := Int.emod t 86400
  match dateOfSecs t with
  | (y, m, d) =>
    padNat 4 y.toNat ++ "-" ++ padNat 2 m.toNat ++ "-" ++ padNat 2 d.toNat ++ " " ++
      padNat 2 (Int.fdiv r 3600).toNat ++ ":" ++
      padNat 2 (Int.emod (Int.fdiv r 60) 60).toNat ++ ":" ++ padNat 2 (Int.emod r 60).toNat

/-! Parsing.  datetime.strptime(text, time-format) with the one fixed format
    the script uses, and float() restricted to the plain decimal notation the
    coordinates of a GPX file use (sign, integer digits, optional fraction;
    the exotic float() spellings such as exponents or inf never reach this
    script through lat/lon attributes and are modelled as parse failures). -/

/-- strptime with format %Y-%m-%dT%H:%M:%SZ, returning seconds since
    1970-01-01, or none where strptime raises ValueError. -/
def parseTimestamp (s : String) : Option Int :=
  match s.data with
  | [y1, y2, y3, y4, c1, m1, m2, c2, d1, d2, c3, h1, h2, c4, n1, n2, c5, s1, s2, c6] =>
    if (c1 == '-' && c2 == '-' && c3 == 'T' && c4 == ':' && c5 == ':' && c6 == 'Z') &&
        [y1, y2, y3, y4, m1, m2, d1, d2, h1, h2, n1, n2, s1, s2].all Char.isDigit then
      let y : Int := (1000 * dvN y1 + 100 * dvN y2 + 10 * dvN y3 + dvN y4 : Nat)
      let mo : Int := (10 * dvN m1 + dvN m2 : Nat)
      let d : Int := (10 * dvN d1 + dvN d2 : Nat)
      let h : Int := (10 * dvN h1 + dvN h2 : Nat)
      let mi : Int := (10 * dvN n1 + dvN n2 : Nat)
      let ss : Int := (10 * dvN s1 + dvN s2 : Nat)
      if 1 ≤ y ∧ 1 ≤ mo ∧ mo ≤ 12 ∧ 1 ≤ d ∧ d ≤ daysInMonth y mo ∧
          h ≤ 23 ∧ mi ≤ 59 ∧ ss ≤ 59 then
        some (daysFromCivil y mo d * 86400 + h * 3600 + mi * 60 + ss)
      else none
    else none
  | _ => none

/-- Value of a most-significant-first digit list. -/
def digitsVal (cs : List Char) : Nat := cs.foldl (fun a c => 10 * a + dvN c) 0

/-- Model of float() on the plain decimal strings GPX coordinates use. -/
def parseRat (s : String) : Option ℚ :=
  let core : List Char → Option ℚ := fun cs =>
    let ip := cs.takeWhile (fun c => c != '.')
    let rest := cs.dropWhile (fun c => c != '.')
    let fp := match rest with
      | [] => some ([] : List Char)
      | '.' :: f => some f
      | _ => none
    match fp with
    | none => none
    | some f =>
      if ip.all Char.isDigit && f.all Char.isDigit && decide (0 < ip.length + f.length) then
        some (mkRat (digitsVal (ip ++ f) : Int) (10 ^ f.length))
      else none
  match s.data with
  | '-' :: cs => (core cs).map (fun q => -q)
  | '+' :: cs => core cs
  | cs => core cs

/-! The XML element model.  ElementTree stores namespace-qualified tags in
    Clark notation, so find(path, namespaces) with path gpx:time and
    namespaces = dict gpx ↦ ns searches the direct children for the tag
    obtained by wrapping ns in braces and appending the local name. -/

/-- An ElementTree element: tag, attribute list, text, children. -/
inductive Elem : Type where
  | mk : String → List (String × String) → Option String → List Elem → Elem

def Elem.tag : Elem → String
  | .mk t _ _ _ => t

def Elem.attrib : Elem → List (String × String)
  | .mk _ a _ _ => a

def Elem.text : Elem → Option String
  | .mk _ _ x _ => x

def Elem.children : Elem → List Elem
  | .mk _ _ _ c => c

/-- Everything of an element except its tag: attributes, text, children.
    remove_trkpt_namespaces must not change this part of any child. -/
def elemContent (e : Elem) : List (String × String) × Option String × List Elem :=
  (e.attrib, e.text, e.children)

/-- Everything of a point subtree except tags, two levels deep: the point's
    attributes and text, and each child's attributes, text and descendants.
    The normalizer renames the point's tag and two child tags, so this is the
    part of a point subtree it must keep. -/
def trkptContent (e : Elem) :
    List (String × String) × Option String ×
      List (List (String × String) × Option String × List Elem) :=
  (e.attrib, e.text, e.children.map elemContent)

/-- Clark-notation qualified tag: open brace, namespace, close brace, name. -/
def qual (ns name : String) : String := "\x7b" ++ ns ++ "\x7d" ++ name

/-- Element.find for a single qualified tag: first direct child carrying it. -/
def findChild (tag : String) : List Elem → Option Elem
  | [] => none
  | c :: rest => if c.tag = tag then some c else findChild tag rest

/-- Retag the first child carrying the given tag (the mutation
    elem.find(path).tag = new of the script, written as a pure update);
    none where find returned None and the attribute assignment would raise. -/
def setFirstTag (old new : String) : List Elem → Option (List Elem)
  | [] => none
  | c :: rest =>
    if c.tag = old then some (Elem.mk new c.attrib c.text c.children :: rest)
    else (setFirstTag old new rest).map (fun cs => c :: cs)

/-! Python exceptions raised by the script's functions. -/

/-- Exceptions the modelled code can raise.  emptyInputError is modelled from
    the spec: the spec names an EmptyInputError for the zero-usable-points
    case, but gpx_per_day.py defines no such class, so no code path produces
    this value. -/
inductive Err : Type where
  | attributeError
  | valueError
  | keyError
  | typeError
  | emptyInputError
deriving DecidableEq

/-! The dataclasses and the distance function. -/

/-- Point dataclass. -/
structure Point where
  latitude : ℚ
  longitude : ℚ
deriving DecidableEq

/-- PrivacyZone dataclass. -/
structure PrivacyZone where
  name : String
  radius_meters : ℚ
  point : Point

/-- Signature of georgio.great_circle_distance(lon1, lat1, lon2, lat2): an
    external library import, so every definition that calls it takes the
    function as a parameter. -/
def Gcd : Type := ℚ → ℚ → ℚ → ℚ → ℚ

/-! Translations of the script's functions, in source order. -/

/-- offset_datetime: dt + timedelta(days = 1024*7*epoch_offset), on the
    seconds timeline. -/
def offset_datetime (dt : Int) (epoch_offset : Int) : Int :=
  dt + 1024 * 7 * epoch_offset * 86400

/-- trkpt_has_time: the trkpt has a namespaced time child. -/
def trkpt_has_time (ns : String) (trkpt : Elem) : Bool :=
  (findChild (qual ns "time") trkpt.children).isSome

/-- trkpt_datetime: strptime of the time child's text.  A missing child makes
    time_elem.text raise AttributeError, text None makes strptime raise
    TypeError, malformed text makes it raise ValueError. -/
def trkpt_datetime (ns : String) (trkpt : Elem) : Except Err Int :=
  match findChild (qual ns "time") trkpt.children with
  | none => .error .attributeError
  | some te =>
    match te.text with
    | none => .error .typeError
    | some s =>
      match parseTimestamp s with
      | none => .error .valueError
      | some t => .ok t

/-- trkpt_to_point: Point(float(attrib lat), float(attrib lon)).  A missing
    attribute raises KeyError, an unparsable one ValueError. -/
def trkpt_to_point (trkpt : Elem) : Except Err Point :=
  match trkpt.attrib.lookup "lat" with
  | none => .error .keyError
  | some la =>
    match parseRat la with
    | none => .error .valueError
    | some lav =>
      match trkpt.attrib.lookup "lon" with
      | none => .error .keyError
      | some lo =>
        match parseRat lo with
        | none => .error .valueError
        | some lov => .ok ⟨lav, lov⟩

/-- should_separate: rules in source order — next point before previous;
    gap above 60 minutes; great-circle distance above 1000 meters; else no
    separation.  The points are parsed only if the two time rules fall
    through, exactly as in the source. -/
def should_separate (g : Gcd) (ns : String) (trkpt1 trkpt2 : Elem) : Except Err Bool :=
  match trkpt_datetime ns trkpt1 with
  | .error er => .error er
  | .ok time1 =>
    match trkpt_datetime ns trkpt2 with
    | .error er => .error er
    | .ok time2 =>
      if time2 < time1 then .ok true
      else if time2 - time1 > 3600 then .ok true
      else
        match trkpt_to_point trkpt1 with
        | .error er => .error er
        | .ok point1 =>
          match trkpt_to_point trkpt2 with
          | .error er => .error er
          | .ok point2 =>
            if g point1.longitude point1.latitude point2.longitude point2.latitude > 1000
            then .ok true
            else .ok false

/-- remove_trkpt_namespaces: set the trkpt tag, then retag its first
    namespaced ele child and its first namespaced time child; none where a
    find returns None and the tag assignment raises AttributeError. -/
def remove_trkpt_namespaces (ns : String) (trkpt : Elem) : Option Elem :=
  match setFirstTag (qual ns "ele") "ele" trkpt.children with
  | none => none
  | some cs1 =>
    match setFirstTag (qual ns "time") "time" cs1 with
    | none => none
    | some cs2 => some (Elem.mk "trkpt" trkpt.attrib trkpt.text cs2)

/-- in_privacy_zone: distance from the point to the zone center is at most
    the zone radius (inclusive comparison, as in the source). -/
def in_privacy_zone (g : Gcd) (point : Point) (pz : PrivacyZone) : Bool :=
  decide (g point.longitude point.latitude pz.point.longitude pz.point.latitude ≤
    pz.radius_meters)

/-- in_any_privacy_zone: first zone that contains the point returns true,
    else false. -/
def in_any_privacy_zone (g : Gcd) (point : Point) : List PrivacyZone → Bool
  | [] => false
  | pz :: rest => if in_privacy_zone g point pz then true else in_any_privacy_zone g point rest

/-! The Track class and its serialization. -/

/-- Track: the corrected anchor datetime (seconds) and the collected points. -/
structure Track where
  date : Int
  trkpts : List Elem

/-- The fixed attribute list of the output gpx root element. -/
def gpxAttribs : List (String × String) :=
  [("version", "1.0"),
   ("creator", "https://github.com/billallen256/photography/blob/master/gpx_per_day.py"),
   ("xmlns", "http://www.topografix.com/GPX/1/0"),
   ("xmlns:xsi", "http://www.w3.org/2001/XMLSchema-instance"),
   ("xsi:schemaLocation",
    "http://www.topografix.com/GPX/1/0 http://www.topografix.com/GPX/1/0/gpx.xsd")]

/-- The for loop of Track.xml: normalize the points in order, stopping at
    the first point on which remove_trkpt_namespaces raises. -/
def mapNormalize (ns : String) : List Elem → Option (List Elem)
  | [] => some []
  | e :: rest =>
    match remove_trkpt_namespaces ns e with
    | none => none
    | some r =>
      match mapNormalize ns rest with
      | none => none
      | some rs => some (r :: rs)

/-- Track.xml: the output document tree
    gpx(trk(name(str(date)), trkseg(normalized points))); none where
    remove_trkpt_namespaces raises on some point.  ET.tostring is a
    deterministic function of this tree, so tree equality models
    byte-identical output. -/
def track_xml (ns : String) (tr : Track) : Option Elem :=
  match mapNormalize ns tr.trkpts with
  | none => none
  | some pts =>
    some (Elem.mk "gpx" gpxAttribs none
      [Elem.mk "trk" [] none
        [Elem.mk "name" [] (some (fmtPyDateTime tr.date)) [],
         Elem.mk "trkseg" [] none pts]])

/-- The trkseg child list of an output document produced by track_xml. -/
def trksegPts : Elem → Option (List Elem)
  | .mk _ _ _ [Elem.mk _ _ _ [_, Elem.mk _ _ _ pts]] => some pts
  | _ => none

/-! The output path allocator (get_unique_path) over an explicit list of
    paths that exist on disk. -/

/-- The candidate path of iteration k: date part, separator and suffix, then
    the dedup suffix, empty at first and then the integers from 1. -/
def candidate (base : String) (k : Nat) : String :=
  base ++ (if k = 0 then "" else natToStr k) ++ ".gpx"

/-- The while loop of get_unique_path: starting from index k, the first index
    whose candidate is not an existing path, searched with structural fuel. -/
def findFreeAux (used : List String) (base : String) : Nat → Nat → Nat
  | 0, k => k
  | fuel + 1, k => if candidate base k ∈ used then findFreeAux used base fuel (k + 1) else k

/-- Index of the candidate get_unique_path returns.  Fuel one past the number
    of existing paths suffices: the candidates are pairwise distinct, so the
    loop cannot stay inside the existing paths that long (proved below). -/
def allocIdx (used : List String) (base : String) : Nat :=
  findFreeAux used base (used.length + 1) 0

/-- The date-plus-suffix part of the path, as Track.write assembles it:
    strftime %Y%m%d of the anchor date, a dash only for a nonempty suffix,
    the suffix. -/
def path_base (anchor : Int) (suffix : String) : String :=
  fmtYmd (dateOfSecs anchor) ++ (if suffix.length > 0 then "-" else "") ++ suffix

/-- get_unique_path over the explicit filesystem. -/
def get_unique_path (used : List String) (base : String) : String :=
  candidate base (allocIdx used base)

/-- The successive path allocations of one run: each written file exists for
    every later allocation (write_bytes creates it). -/
def allocateRun (suffix : String) (used : List String) : List Int → List String
  | [] => []
  | d :: ds =>
    let p := get_unique_path used (path_base d suffix)
    p :: allocateRun suffix (used ++ [p]) ds

/-! The main loop (lines 245-268), as a state machine over the stream of
    trkpt elements that get_trkpts yields.  Raised exceptions stop the run:
    once err is set every further step is the identity. -/

/-- Run configuration: the namespace found in the input document, the file
    suffix, the epoch offset, the privacy zones, and the external distance
    function. -/
structure Config where
  ns : String
  suffix : String
  epoch_offset : Int
  privacy_zones : List PrivacyZone
  great_circle_distance : Gcd

/-- State of the loop: previous point, open track, written files in emission
    order (track, path, document tree), paths existing on disk, pending
    exception. -/
structure RunState where
  prev : Option Elem
  current : Option Track
  emitted : List (Track × String × Elem)
  used : List String
  err : Option Err

/-- Track.write: allocate the path, serialize, create the file.  The path is
    computed before the document; an AttributeError inside xml() leaves the
    filesystem unchanged. -/
def writeTrack (cfg : Config) (s : RunState) (tr : Track) : RunState :=
  let path := get_unique_path s.used (path_base tr.date cfg.suffix)
  match track_xml cfg.ns tr with
  | none => { s with err := some .attributeError }
  | some x => { s with emitted := s.emitted ++ [(tr, path, x)], used := s.used ++ [path] }

/-- The separation test of line 256: a new track is due when there is no
    previous point or when should_separate says so. -/
def sepDecision (cfg : Config) (s : RunState) (e : Elem) : Except Err Bool :=
  match s.prev with
  | none => .ok true
  | some pe => should_separate cfg.great_circle_distance cfg.ns pe e

/-- Lines 257-263: write the open track if there is one, then open a new
    track anchored at the point's corrected timestamp. -/
def closeOpen (cfg : Config) (s : RunState) (e : Elem) : RunState :=
  let sA :=
    match s.current with
    | some tr => writeTrack cfg s tr
    | none => s
  if sA.err.isSome then sA
  else
    match trkpt_datetime cfg.ns e with
    | .error er => { sA with err := some er }
    | .ok t => { sA with current := some ⟨offset_datetime t cfg.epoch_offset, []⟩ }

/-- Lines 265-266: append the point to the open track and remember it as the
    previous point; current_track is None only on a broken path, where
    add_trkpt would raise AttributeError. -/
def appendPt (s : RunState) (e : Elem) : RunState :=
  if s.err.isSome then s
  else
    match s.current with
    | some tr => { s with current := some ⟨tr.date, tr.trkpts ++ [e]⟩, prev := some e }
    | none => { s with err := some .attributeError }

/-- One iteration of the for loop: skip the point if it has no time child or
    falls in a privacy zone; otherwise close and write the open track when a
    separation is due, open a new track anchored at the corrected timestamp,
    and append the point. -/
def step (cfg : Config) (s0 : RunState) (e : Elem) : RunState :=
  if s0.err.isSome then s0
  else if trkpt_has_time cfg.ns e then
    match trkpt_to_point e with
    | .error er => { s0 with err := some er }
    | .ok p =>
      if in_any_privacy_zone cfg.great_circle_distance p cfg.privacy_zones then s0
      else
        match sepDecision cfg s0 e with
        | .error er => { s0 with err := some er }
        | .ok sep => appendPt (if sep then closeOpen cfg s0 e else s0) e
  else s0

/-- The state before the loop: nothing seen, the given paths on disk. -/
def initState (fs0 : List String) : RunState :=
  ⟨none, none, [], fs0, none⟩

/-- main, from the trkpt stream on: the loop over the points, then the final
    current_track.write, which dereferences None when no track was ever
    opened. -/
def mainRun (cfg : Config) (fs0 : List String) (input : List Elem) : RunState :=
  let s := input.foldl (step cfg) (initState fs0)
  if s.err.isSome then s
  else
    match s.current with
    | some tr => writeTrack cfg s tr
    | none => { s with err := some .attributeError }

/-! The filter the loop applies (skip conditions of lines 250-254), as a
    standalone function for the conservation statement. -/

/-- Whether the loop keeps a point: it has a time child and lies in no
    privacy zone; error where parsing its coordinates raises. -/
def keep (cfg : Config) (e : Elem) : Except Err Bool :=
  if trkpt_has_time cfg.ns e then
    match trkpt_to_point e with
    | .error er => .error er
    | .ok p => .ok (!in_any_privacy_zone cfg.great_circle_distance p cfg.privacy_zones)
  else .ok false

/-- The usable subsequence of the input: timestamped, non-redacted points in
    their original order. -/
def filter_usable (cfg : Config) : List Elem → Except Err (List Elem)
  | [] => .ok []
  | e :: rest =>
    match keep cfg e with
    | .error er => .error er
    | .ok b =>
      match filter_usable cfg rest with
      | .error er => .error er
      | .ok fl => .ok (if b then e :: fl else fl)

/-! The spec's statement of the separation rule (claim C1), to be compared
    with should_separate: first matching rule in order — out-of-order guard,
    temporal gap above the configured threshold, then, only if a distance
    threshold is configured, spatial gap above it — else false. -/

/-- The separation predicate as the spec words it, over already-parsed
    timestamps and the computed distance. -/
def should_separate_claim (time_gap : Int) (dist_gap : Option ℚ) (t1 t2 : Int) (d : ℚ) :
    Bool :=
  if t2 < t1 then true
  else if t2 - t1 > time_gap then true
  else
    match dist_gap with
    | some thr => decide (d > thr)
    | none => false

/-! Concrete inputs used by witnesses and counterexamples. -/

/-- The GPX 1.0 namespace the script finds in its input documents. -/
def gpxNs : String := "http://www.topografix.com/GPX/1/0"

/-- A trkpt element as the input document carries it: qualified tag, lat/lon
    attributes, optional namespaced ele and time children. -/
def mkTrkpt (lat lon : String) (ele : Option String) (time : Option String) : Elem :=
  Elem.mk (qual gpxNs "trkpt") [("lat", lat), ("lon", lon)] none
    ((match ele with
      | some v => [Elem.mk (qual gpxNs "ele") [] (some v) []]
      | none => []) ++
     (match time with
      | some v => [Elem.mk (qual gpxNs "time") [] (some v) []]
      | none => []))

/-- A distance function that reports every pair of points as coincident. -/
def gZero : Gcd := fun _ _ _ _ => 0

/-- A run with no suffix, no epoch offset and no privacy zones. -/
def cfg0 : Config := ⟨gpxNs, "", 0, [], gZero⟩

/-- The same run with epoch offset 1. -/
def cfg1 : Config := ⟨gpxNs, "", 1, [], gZero⟩

/-- A complete point at 2003-01-01T10:00:00Z. -/
def tpW1 : Elem := mkTrkpt "1.0" "2.0" (some "10.0") (some "2003-01-01T10:00:00Z")

/-- A complete point one hour earlier, at 2003-01-01T09:00:00Z. -/
def tpW2 : Elem := mkTrkpt "1.0" "2.0" (some "10.0") (some "2003-01-01T09:00:00Z")

/-- A complete point at 2003-01-01T00:00:00Z. -/
def tpB : Elem := mkTrkpt "1.0" "2.0" (some "10.0") (some "2003-01-01T00:00:00Z")

/-- What remove_trkpt_namespaces makes of tpB. -/
def tpBn : Elem :=
  Elem.mk "trkpt" [("lat", "1.0"), ("lon", "2.0")] none
    [Elem.mk "ele" [] (some "10.0") [],
     Elem.mk "time" [] (some "2003-01-01T00:00:00Z") []]

/-- A timestamped point that carries no elevation child. -/
def tpNoEle : Elem := mkTrkpt "1.0" "2.0" none (some "2003-01-01T00:00:00Z")

/-- A point with no time child at all. -/
def tpNoTime : Elem := mkTrkpt "1.0" "2.0" (some "10.0") none

/-- The text of the time child of a normalized (output) point. -/
def timeTextPlain (e : Elem) : Option String :=
  (findChild "time" e.children).bind Elem.text

/-! Invariants of the main loop, used to state and prove the conservation
    and anchoring claims. -/

/-- A track is anchored at the corrected timestamp of its first point: its
    date is offset_datetime of that point's parsed time, with the run's
    epoch offset. -/
def anchored (cfg : Config) (tr : Track) : Prop :=
  ∃ e0 t0, tr.trkpts.head? = some e0 ∧ trkpt_datetime cfg.ns e0 = .ok t0 ∧
    tr.date = offset_datetime t0 cfg.epoch_offset

/-- The loop invariant: no pending exception; every written track is
    nonempty, anchored, and serialized into exactly the stored tree; the open
    track, if any, is nonempty and anchored; before the first usable point
    nothing has been seen or written. -/
def stateOk (cfg : Config) (s : RunState) : Prop :=
  s.err = none ∧
  (∀ em ∈ s.emitted,
    em.1.trkpts ≠ [] ∧ anchored cfg em.1 ∧ track_xml cfg.ns em.1 = some em.2.2) ∧
  (∀ tr, s.current = some tr → tr.trkpts ≠ [] ∧ anchored cfg tr) ∧
  (s.current = none → s.prev = none ∧ s.emitted = [])

/-- All points the state holds, in order: the written tracks' points in
    emission order, then the open track's points. -/
def outPts (s : RunState) : List Elem :=
  (s.emitted.map (fun em => em.1.trkpts)).flatten ++
    (match s.current with
     | some tr => tr.trkpts
     | none => [])

/-! Theorems.  First the decimal-string toolbox behind the path allocator. -/

theorem valRev_natDigitsRevFuel : ∀ fuel n, n ≤ fuel → valRev (natDigitsRevFuel fuel n) = n := by
  intro fuel
  induction fuel with
  | zero =>
    intro n h
    have : n = 0 := Nat.le_zero.mp h
    simp [this, natDigitsRevFuel, valRev]
  | succ f ih =>
    intro n h
    by_cases hn : n = 0
    · simp [hn, natDigitsRevFuel, valRev]
    · have hpos : 0 < n := Nat.pos_of_ne_zero hn
      have hdiv : n / 10 < n := Nat.div_lt_self hpos (by norm_num)
      have hle : n / 10 ≤ f := by omega
      simp [natDigitsRevFuel, hn, valRev, ih (n / 10) hle]
      omega

theorem valRev_natDigitsRev (n : Nat) : valRev (natDigitsRev n) = n :=
  valRev_natDigitsRevFuel n n le_rfl

theorem natDigitsRevFuel_lt10 : ∀ fuel n d, d ∈ natDigitsRevFuel fuel n → d < 10 := by
  intro fuel
  induction fuel with
  | zero => intro n d h; simp [natDigitsRevFuel] at h
  | succ f ih =>
    intro n d h
    by_cases hn : n = 0
    · simp [natDigitsRevFuel, hn] at h
    · simp [natDigitsRevFuel, hn] at h
      rcases h with h | h
      · exact h ▸ Nat.mod_lt _ (by norm_num)
      · exact ih _ _ h

theorem natDigitsRevFuel_lt10' (fuel n d : Nat) (h : d ∈ natDigitsRevFuel fuel n) : d < 10 :=
  natDigitsRevFuel_lt10 fuel n d h

theorem digitChar_injOn : ∀ a, a < 10 → ∀ b, b < 10 → Nat.digitChar a = Nat.digitChar b → a = b := by
  decide

theorem map_digitChar_inj :
    ∀ l1 l2 : List Nat, (∀ d ∈ l1, d < 10) → (∀ d ∈ l2, d < 10) →
      l1.map Nat.digitChar = l2.map Nat.digitChar → l1 = l2 := by
  intro l1
  induction l1 with
  | nil => intro l2 _ _ h; cases l2 <;> simp_all
  | cons a t ih =>
    intro l2 h1 h2 h
    cases l2 with
    | nil => simp at h
    | cons b t2 =>
      simp at h
      have hab : a = b :=
        digitChar_injOn a (h1 a (by simp)) b (h2 b (by simp)) h.1
      have := ih t2 (fun d hd => h1 d (by simp [hd])) (fun d hd => h2 d (by simp [hd])) h.2
      simp [hab, this]

theorem str_data_append (a b : String) : (a ++ b).data = a.data ++ b.data := by
  cases a; cases b; rfl

theorem str_ext {a b : String} (h : a.data = b.data) : a = b := by
  cases a; cases b; simp only [String.data] at h; subst h; rfl

theorem natToStr_inj_pos {m n : Nat} (hm : 0 < m) (hn : 0 < n)
    (h : natToStr m = natToStr n) : m = n := by
  unfold natToStr at h
  rw [if_neg (Nat.pos_iff_ne_zero.mp hm), if_neg (Nat.pos_iff_ne_zero.mp hn)] at h
  have hdata := congrArg String.data h
  simp only [String.data] at hdata
  have hrev := map_digitChar_inj _ _
    (fun d hd => natDigitsRevFuel_lt10' _ _ _ (List.mem_reverse.mp hd))
    (fun d hd => natDigitsRevFuel_lt10' _ _ _ (List.mem_reverse.mp hd)) hdata
  have hdig : natDigitsRev m = natDigitsRev n := List.reverse_injective hrev
  have := congrArg valRev hdig
  rwa [valRev_natDigitsRev, valRev_natDigitsRev] at this

theorem natToStr_ne_empty {n : Nat} (hn : 0 < n) : natToStr n ≠ "" := by
  intro h
  have hdata := congrArg String.data h
  unfold natToStr at hdata
  rw [if_neg (Nat.pos_iff_ne_zero.mp hn)] at hdata
  simp only [String.data] at hdata
  cases hn' : natDigitsRev n with
  | nil =>
    have := valRev_natDigitsRev n
    rw [hn'] at this
    simp [valRev] at this
    omega
  | cons d ds => simp [hn'] at hdata

theorem candidate_inj (base : String) : ∀ j k, candidate base j = candidate base k → j = k := by
  intro j k h
  unfold candidate at h
  have hdata := congrArg String.data h
  rw [str_data_append, str_data_append, str_data_append, str_data_append] at hdata
  rw [List.append_assoc, List.append_assoc] at hdata
  have hmid := List.append_cancel_left hdata
  have hmid2 := List.append_cancel_right hmid
  have hmids : (if j = 0 then "" else natToStr j) = (if k = 0 then "" else natToStr k) :=
    str_ext hmid2
  by_cases hj : j = 0 <;> by_cases hk : k = 0
  · omega
  · rw [if_pos hj, if_neg hk] at hmids
    exact absurd hmids.symm (natToStr_ne_empty (Nat.pos_of_ne_zero hk))
  · rw [if_neg hj, if_pos hk] at hmids
    exact absurd hmids (natToStr_ne_empty (Nat.pos_of_ne_zero hj))
  · rw [if_neg hj, if_neg hk] at hmids
    exact natToStr_inj_pos (Nat.pos_of_ne_zero hj) (Nat.pos_of_ne_zero hk) hmids

theorem exists_candidate_free (used : List String) (base : String) :
    ∃ k, k ≤ used.length ∧ candidate base k ∉ used := by
  by_contra h
  push_neg at h
  have hsub : ∀ i : Fin (used.length + 1), candidate base i ∈ used.toFinset := fun i =>
    List.mem_toFinset.mpr (h i (Nat.lt_succ_iff.mp i.isLt))
  have hinj : Set.InjOn (fun i : Fin (used.length + 1) => candidate base i)
      (Finset.univ : Finset (Fin (used.length + 1))) := by
    intro a _ b _ hab
    exact Fin.ext (candidate_inj base a b hab)
  have hcard := Finset.card_le_card_of_injOn
    (fun i : Fin (used.length + 1) => candidate base i) (fun i _ => hsub i) hinj
  rw [Finset.card_univ, Fintype.card_fin] at hcard
  have := used.toFinset_card_le
  omega

theorem findFreeAux_spec (used : List String) (base : String) :
    ∀ fuel k, (∃ j, k ≤ j ∧ j < k + fuel ∧ candidate base j ∉ used) →
      candidate base (findFreeAux used base fuel k) ∉ used ∧
      k ≤ findFreeAux used base fuel k ∧
      ∀ j, k ≤ j → j < findFreeAux used base fuel k → candidate base j ∈ used := by
  intro fuel
  induction fuel with
  | zero =>
    intro k h
    obtain ⟨j, hj1, hj2, _⟩ := h
    omega
  | succ f ih =>
    intro k h
    by_cases hmem : candidate base k ∈ used
    · have h' : ∃ j, k + 1 ≤ j ∧ j < (k + 1) + f ∧ candidate base j ∉ used := by
        obtain ⟨j, hj1, hj2, hj3⟩ := h
        refine ⟨j, ?_, by omega, hj3⟩
        rcases Nat.eq_or_lt_of_le hj1 with heq | hlt
        · exact absurd hmem (heq ▸ hj3)
        · omega
      have := ih (k + 1) h'
      simp only [findFreeAux, if_pos hmem]
      refine ⟨this.1, by omega, ?_⟩
      intro j hj1 hj2
      rcases Nat.eq_or_lt_of_le hj1 with heq | hlt
      · exact heq ▸ hmem
      · exact this.2.2 j hlt hj2
    · simp only [findFreeAux, if_neg hmem]
      exact ⟨hmem, le_rfl, fun j hj1 hj2 => by omega⟩

theorem get_unique_path_spec (used : List String) (base : String) :
    candidate base (allocIdx used base) ∉ used ∧
    allocIdx used base ≤ used.length ∧
    ∀ j, j < allocIdx used base → candidate base j ∈ used := by
  obtain ⟨j0, hj0le, hj0free⟩ := exists_candidate_free used base
  have hex : ∃ j, 0 ≤ j ∧ j < 0 + (used.length + 1) ∧ candidate base j ∉ used :=
    ⟨j0, Nat.zero_le _, by omega, hj0free⟩
  have h := findFreeAux_spec used base (used.length + 1) 0 hex
  rw [show findFreeAux used base (used.length + 1) 0 = allocIdx used base from rfl] at h
  refine ⟨h.1, ?_, fun j hj => h.2.2 j (Nat.zero_le _) hj⟩
  by_contra hgt
  push_neg at hgt
  exact hj0free (h.2.2 j0 (Nat.zero_le _) (by omega))

theorem get_unique_path_fresh (used : List String) (base : String) :
    get_unique_path used base ∉ used :=
  (get_unique_path_spec used base).1

theorem allocateRun_fresh (suffix : String) :
    ∀ ds used, ∀ p ∈ allocateRun suffix used ds, p ∉ used := by
  intro ds
  induction ds with
  | nil => intro used p hp; simp [allocateRun] at hp
  | cons d t ih =>
    intro used p hp
    simp only [allocateRun, List.mem_cons] at hp
    rcases hp with rfl | hp
    · exact get_unique_path_fresh used _
    · intro hmem
      exact ih _ p hp (by simp [hmem])

theorem allocateRun_nodup (suffix : String) :
    ∀ ds used, (allocateRun suffix used ds).Nodup := by
  intro ds
  induction ds with
  | nil => intro used; simp [allocateRun]
  | cons d t ih =>
    intro used
    simp only [allocateRun, List.nodup_cons]
    refine ⟨fun hmem => ?_, ih _⟩
    have := allocateRun_fresh suffix t _ _ hmem
    simp at this

theorem allocateRun_length (suffix : String) :
    ∀ ds used, (allocateRun suffix used ds).length = ds.length := by
  intro ds
  induction ds with
  | nil => intro used; simp [allocateRun]
  | cons d t ih => intro used; simp [allocateRun, ih]

/-! Claim C7 and C10: the path allocator. -/

/-- C7: over any filesystem state and any anchor dates (repeats allowed) with
    a fixed suffix, the run's allocated paths are pairwise distinct, none of
    them pre-existed, one path is allocated per session, and each single
    allocation returns the base name when it is unused and otherwise the
    first unused candidate, every earlier candidate being an existing path.
    The allocator is a pure function of the filesystem state, so its result
    is deterministic by construction. -/
theorem c7_alloc_paths_distinct_fresh (suffix : String) (used0 : List String)
    (dates : List Int) :
    (allocateRun suffix used0 dates).Nodup ∧
    (∀ p ∈ allocateRun suffix used0 dates, p ∉ used0) ∧
    (allocateRun suffix used0 dates).length = dates.length ∧
    (∀ used base, get_unique_path used base ∉ used ∧
      (candidate base 0 ∉ used → get_unique_path used base = candidate base 0) ∧
      ∀ j, j < allocIdx used base → candidate base j ∈ used) := by
  refine ⟨allocateRun_nodup suffix dates used0, allocateRun_fresh suffix dates used0,
    allocateRun_length suffix dates used0, ?_⟩
  intro used base
  have h := get_unique_path_spec used base
  refine ⟨h.1, ?_, h.2.2⟩
  intro h0
  have hz : allocIdx used base = 0 := by
    by_contra hne
    exact h0 (h.2.2 0 (Nat.pos_of_ne_zero hne))
  simp [get_unique_path, hz]

/-- C7 witness: two sessions with the same anchor date against a filesystem
    already holding the base path. -/
theorem c7_witness :
    (allocateRun "" ["20230101.gpx"] [1672531200, 1672531200]).Nodup ∧
    ∀ p ∈ allocateRun "" ["20230101.gpx"] [1672531200, 1672531200],
      p ∉ ["20230101.gpx"] :=
  ⟨(c7_alloc_paths_distinct_fresh "" ["20230101.gpx"] [1672531200, 1672531200]).1,
   (c7_alloc_paths_distinct_fresh "" ["20230101.gpx"] [1672531200, 1672531200]).2.1⟩

/-- C10: the allocator's search loop terminates because the candidate paths
    are pairwise distinct and only finitely many paths exist: the index found
    is at most the number of existing paths, and its candidate is unused. -/
theorem c10_allocator_terminates (used : List String) (base : String) :
    allocIdx used base ≤ used.length ∧
    candidate base (allocIdx used base) ∉ used ∧
    ∀ j k : Nat, candidate base j = candidate base k → j = k :=
  ⟨(get_unique_path_spec used base).2.1, (get_unique_path_spec used base).1,
   candidate_inj base⟩

/-- C10 witness: the bound and freshness at a concrete filesystem. -/
theorem c10_witness :
    allocIdx ["20230401.gpx"] "20230401" ≤ (["20230401.gpx"] : List String).length ∧
    candidate "20230401" (allocIdx ["20230401.gpx"] "20230401") ∉ ["20230401.gpx"] :=
  ⟨(c10_allocator_terminates ["20230401.gpx"] "20230401").1,
   (c10_allocator_terminates ["20230401.gpx"] "20230401").2.1⟩

/-! Claim C3: the time corrector. -/

/-- C3 counterexample: the claim requires the corrector's result to include a
    UTC-offset term u hours for every u in [-12, 12]; at t = 0, e = 0, u = 12
    the code returns 0, not 12 hours.  offset_datetime takes no UTC-offset
    parameter at all. -/
theorem c3_counterexample :
    ¬ (offset_datetime 0 0 = 0 + 12 * 3600 + 0 * (1024 * 604800)) := by
  decide

/-- C3 amended: the corrector applies only the epoch offset — for every
    timestamp t and every signed e it returns exactly t + e * 1024 weeks
    (604800 seconds per week); there is no UTC-offset parameter, so the
    claimed equation holds only with the u-term absent.  In particular it
    holds for e in -2..2. -/
theorem c3_corrector_epoch_only (t e : Int) :
    offset_datetime t e = t + e * (1024 * 604800) := by
  unfold offset_datetime
  ring

/-- C3 witness: the amended equation at a concrete point. -/
theorem c3_witness : offset_datetime 5 2 = 5 + 2 * (1024 * 604800) :=
  c3_corrector_epoch_only 5 2

/-! Claim C5: the privacy filter. -/

theorem in_any_eq_any (g : Gcd) (p : Point) :
    ∀ zs, in_any_privacy_zone g p zs = zs.any (in_privacy_zone g p) := by
  intro zs
  induction zs with
  | nil => rfl
  | cons z t ih =>
    simp only [in_any_privacy_zone, List.any_cons, ih]
    cases h : in_privacy_zone g p z <;> simp [h]

/-- C5: a point is excluded iff some zone's center is within that zone's
    radius of it (the comparison is the inclusive one of the source, so a
    point exactly at the radius is excluded and any point strictly beyond
    every radius is retained), and an empty zone list excludes nothing. -/
theorem c5_privacy_zone_iff (g : Gcd) (p : Point) (zones : List PrivacyZone) :
    (in_any_privacy_zone g p zones = true ↔
      ∃ z ∈ zones,
        g p.longitude p.latitude z.point.longitude z.point.latitude ≤ z.radius_meters) ∧
    in_any_privacy_zone g p [] = false := by
  refine ⟨?_, rfl⟩
  rw [in_any_eq_any]
  simp [List.any_eq_true, in_privacy_zone]

/-- C5 witness: a zone whose center is exactly at the radius distance
    excludes, and the empty list excludes nothing. -/
theorem c5_witness :
    in_any_privacy_zone gZero ⟨1, 2⟩ [⟨"home", 0, ⟨1, 2⟩⟩] = true ∧
    in_any_privacy_zone gZero ⟨1, 2⟩ [] = false :=
  ⟨(c5_privacy_zone_iff gZero ⟨1, 2⟩ [⟨"home", 0, ⟨1, 2⟩⟩]).1.mpr
     ⟨⟨"home", 0, ⟨1, 2⟩⟩, by simp, le_rfl⟩,
   (c5_privacy_zone_iff gZero ⟨1, 2⟩ []).2⟩

/-! Claim C1: the separation rule. -/

/-- C1: on points whose timestamps and coordinates parse, should_separate
    returns exactly the spec's first-matching-rule decision, with this
    program's configured thresholds (time gap 60 minutes, distance gap
    configured as 1000 meters); in particular an out-of-order point forces a
    separation regardless of the size of the gap or of the distance. -/
theorem c1_should_separate_first_matching_rule (g : Gcd) (ns : String) (e1 e2 : Elem)
    (t1 t2 : Int) (p1 p2 : Point)
    (h1 : trkpt_datetime ns e1 = .ok t1) (h2 : trkpt_datetime ns e2 = .ok t2)
    (h3 : trkpt_to_point e1 = .ok p1) (h4 : trkpt_to_point e2 = .ok p2) :
    should_separate g ns e1 e2 =
      .ok (should_separate_claim 3600 (some 1000) t1 t2
        (g p1.longitude p1.latitude p2.longitude p2.latitude)) ∧
    (t2 < t1 → should_separate g ns e1 e2 = .ok true) := by
  have key : should_separate g ns e1 e2 =
      .ok (should_separate_claim 3600 (some 1000) t1 t2
        (g p1.longitude p1.latitude p2.longitude p2.latitude)) := by
    unfold should_separate should_separate_claim
    simp only [h1, h2, h3, h4]
    split_ifs with hlt hgap hd
    · rfl
    · rfl
    · simp [hd]
    · simp [hd]
  refine ⟨key, fun hlt => ?_⟩
  rw [key]
  simp [should_separate_claim, hlt]

/-- C1 witness: a point one hour before its predecessor separates through the
    out-of-order rule even though the absolute gap is small. -/
theorem c1_witness :
    trkpt_datetime gpxNs tpW2 = .ok 1041411600 ∧
    should_separate gZero gpxNs tpW1 tpW2 = .ok true :=
  ⟨by rfl,
   (c1_should_separate_first_matching_rule gZero gpxNs tpW1 tpW2 1041415200 1041411600
      ⟨1, 2⟩ ⟨1, 2⟩ (by rfl) (by rfl) (by rfl) (by rfl)).2 (by decide)⟩

/-! Claims C8 and C9: the namespace normalizer and the serializer. -/

theorem qual_length (ns name : String) : (qual ns name).length = ns.length + name.length + 2 := by
  simp [qual, String.length_append, show ("\x7b" : String).length = 1 from rfl,
    show ("\x7d" : String).length = 1 from rfl]
  omega

theorem setFirstTag_content {o n : String} :
    ∀ {cs cs' : List Elem}, setFirstTag o n cs = some cs' →
      cs'.map elemContent = cs.map elemContent := by
  intro cs
  induction cs with
  | nil => intro cs' h; exact Option.noConfusion h
  | cons c rest ih =>
    intro cs' h
    simp only [setFirstTag] at h
    by_cases hc : c.tag = o
    · rw [if_pos hc] at h
      cases h
      simp [elemContent, Elem.attrib, Elem.text, Elem.children]
    · rw [if_neg hc] at h
      cases hrec : setFirstTag o n rest with
      | none => rw [hrec] at h; simp at h
      | some cs'' =>
        rw [hrec] at h
        simp only [Option.map_some'] at h
        cases h
        simp [ih hrec]

theorem setFirstTag_of_find {o n : String} :
    ∀ cs : List Elem, (findChild o cs).isSome = true →
      ∃ cs', setFirstTag o n cs = some cs' := by
  intro cs
  induction cs with
  | nil => intro h; exact Bool.noConfusion h
  | cons c rest ih =>
    intro h
    simp only [findChild] at h
    by_cases hc : c.tag = o
    · exact ⟨Elem.mk n c.attrib c.text c.children :: rest, by simp [setFirstTag, hc]⟩
    · rw [if_neg hc] at h
      obtain ⟨cs', hcs'⟩ := ih h
      exact ⟨c :: cs', by simp [setFirstTag, hc, hcs']⟩

theorem setFirstTag_find_other {o n o' : String} (ho : o' ≠ o) (hn : o' ≠ n) :
    ∀ {cs cs' : List Elem}, setFirstTag o n cs = some cs' →
      (findChild o' cs').isSome = (findChild o' cs).isSome := by
  intro cs
  induction cs with
  | nil => intro cs' h; exact Option.noConfusion h
  | cons c rest ih =>
    intro cs' h
    simp only [setFirstTag] at h
    by_cases hc : c.tag = o
    · rw [if_pos hc] at h
      cases h
      simp only [findChild, Elem.tag]
      rw [if_neg (fun hh => hn hh.symm), if_neg (fun hh => ho (hh.symm.trans hc))]
    · rw [if_neg hc] at h
      cases hrec : setFirstTag o n rest with
      | none => rw [hrec] at h; simp at h
      | some cs'' =>
        rw [hrec] at h
        simp only [Option.map_some'] at h
        cases h
        simp only [findChild]
        by_cases hc' : c.tag = o'
        · simp [hc']
        · rw [if_neg hc', if_neg hc']
          exact ih hrec

/-- Content preservation of the normalizer, shared helper: a successful
    remove_trkpt_namespaces changes only tags — the root becomes trkpt, the
    root's attributes and text and every child's attributes, text and
    descendants are unchanged. -/
theorem remove_trkpt_content {ns : String} {e e' : Elem}
    (h : remove_trkpt_namespaces ns e = some e') :
    e'.tag = "trkpt" ∧ e'.attrib = e.attrib ∧ e'.text = e.text ∧
    e'.children.map elemContent = e.children.map elemContent := by
  unfold remove_trkpt_namespaces at h
  cases h1 : setFirstTag (qual ns "ele") "ele" e.children with
  | none => simp only [h1] at h; exact Option.noConfusion h
  | some cs1 =>
    simp only [h1] at h
    cases h2 : setFirstTag (qual ns "time") "time" cs1 with
    | none => simp only [h2] at h; exact Option.noConfusion h
    | some cs2 =>
      simp only [h2, Option.some.injEq] at h
      subst h
      refine ⟨rfl, rfl, rfl, ?_⟩
      simp only [Elem.children]
      exact (setFirstTag_content h2).trans (setFirstTag_content h1)

/-- Success of the normalizer on a point carrying namespaced ele and time
    children. -/
theorem remove_trkpt_ok {ns : String} {e : Elem}
    (hele : (findChild (qual ns "ele") e.children).isSome = true)
    (htime : (findChild (qual ns "time") e.children).isSome = true) :
    ∃ e', remove_trkpt_namespaces ns e = some e' := by
  obtain ⟨cs1, hcs1⟩ := setFirstTag_of_find (o := qual ns "ele") (n := "ele") e.children hele
  have hqne : qual ns "time" ≠ qual ns "ele" := by
    intro hq
    have hlen := congrArg String.length hq
    rw [qual_length, qual_length] at hlen
    simp [show ("time" : String).length = 4 from rfl,
      show ("ele" : String).length = 3 from rfl] at hlen
  have hqnn : qual ns "time" ≠ "ele" := by
    intro hq
    have hlen := congrArg String.length hq
    rw [qual_length] at hlen
    simp [show ("time" : String).length = 4 from rfl,
      show ("ele" : String).length = 3 from rfl] at hlen
  have htime1 : (findChild (qual ns "time") cs1).isSome = true := by
    rw [setFirstTag_find_other hqne hqnn hcs1]
    exact htime
  obtain ⟨cs2, hcs2⟩ := setFirstTag_of_find (o := qual ns "time") (n := "time") cs1 htime1
  exact ⟨Elem.mk "trkpt" e.attrib e.text cs2,
    by simp [remove_trkpt_namespaces, hcs1, hcs2]⟩

theorem mapNormalize_content {ns : String} :
    ∀ {l res : List Elem}, mapNormalize ns l = some res →
      res.map trkptContent = l.map trkptContent ∧ res.length = l.length := by
  intro l
  induction l with
  | nil => intro res h; simp [mapNormalize] at h; simp [← h]
  | cons e rest ih =>
    intro res h
    simp only [mapNormalize] at h
    cases h1 : remove_trkpt_namespaces ns e with
    | none => rw [h1] at h; simp at h
    | some r =>
      rw [h1] at h
      cases h2 : mapNormalize ns rest with
      | none => rw [h2] at h; simp at h
      | some rs =>
        rw [h2] at h
        simp only [Option.some.injEq] at h
        subst h
        have hr := remove_trkpt_content h1
        have := ih h2
        constructor
        · simp only [List.map_cons, this.1]
          rw [show trkptContent r = trkptContent e from ?_]
          unfold trkptContent
          rw [hr.2.1, hr.2.2.1, hr.2.2.2]
        · simp [this.2]

theorem mapNormalize_ok {ns : String} :
    ∀ l : List Elem,
      (∀ e ∈ l, (findChild (qual ns "ele") e.children).isSome = true ∧
        (findChild (qual ns "time") e.children).isSome = true) →
      ∃ res, mapNormalize ns l = some res := by
  intro l
  induction l with
  | nil => intro _; exact ⟨[], rfl⟩
  | cons e rest ih =>
    intro h
    obtain ⟨e', he'⟩ := remove_trkpt_ok (h e (by simp)).1 (h e (by simp)).2
    obtain ⟨res, hres⟩ := ih (fun x hx => h x (by simp [hx]))
    exact ⟨e' :: res, by simp [mapNormalize, he', hres]⟩

/-- C8 counterexample: normalization is not idempotent.  On a normalized
    point subtree the namespaced finds no longer match, so re-normalizing
    raises (none) instead of being a no-op: applying the normalizer twice is
    not byte-identical to applying it once. -/
theorem c8_counterexample :
    remove_trkpt_namespaces gpxNs tpB = some tpBn ∧
    remove_trkpt_namespaces gpxNs tpBn = none :=
  ⟨rfl, rfl⟩

/-- C8 amended: a successful normalization never alters attribute values or
    text content — the root keeps its attributes and text and every child
    keeps its attributes, text and descendants (only tags change, the root's
    to trkpt) — but it is not idempotent: re-normalizing an already
    normalized subtree fails instead of being a no-op (see the
    counterexample). -/
theorem c8_normalize_preserves_content (ns : String) (e e' : Elem)
    (h : remove_trkpt_namespaces ns e = some e') :
    e'.tag = "trkpt" ∧ e'.attrib = e.attrib ∧ e'.text = e.text ∧
    e'.children.map elemContent = e.children.map elemContent :=
  remove_trkpt_content h

/-- C8 witness: the preservation theorem applied to a concrete point. -/
theorem c8_witness :
    remove_trkpt_namespaces gpxNs tpW1 = some
      (Elem.mk "trkpt" [("lat", "1.0"), ("lon", "2.0")] none
        [Elem.mk "ele" [] (some "10.0") [],
         Elem.mk "time" [] (some "2003-01-01T10:00:00Z") []]) ∧
    (Elem.mk "trkpt" [("lat", "1.0"), ("lon", "2.0")] none
        [Elem.mk "ele" [] (some "10.0") [],
         Elem.mk "time" [] (some "2003-01-01T10:00:00Z") []]).children.map elemContent =
      tpW1.children.map elemContent :=
  ⟨rfl,
   (c8_normalize_preserves_content gpxNs tpW1
      (Elem.mk "trkpt" [("lat", "1.0"), ("lon", "2.0")] none
        [Elem.mk "ele" [] (some "10.0") [],
         Elem.mk "time" [] (some "2003-01-01T10:00:00Z") []]) rfl).2.2.2⟩

/-- C9 counterexample: serializing a session containing a track point with no
    elevation child does not succeed — remove_trkpt_namespaces dereferences
    the missing ele element and Track.xml raises (none), so no ele-free
    document is produced. -/
theorem c9_counterexample : track_xml gpxNs ⟨1041379200, [tpNoEle]⟩ = none := rfl

/-- C9 amended: serialization fails on a point without elevation (see the
    counterexample); when every point of the session carries namespaced ele
    and time children it succeeds, and the output trkseg holds exactly the
    normalized points, one per input point, in the session's internal order,
    with unchanged attributes and texts. -/
theorem c9_serialize_with_ele (ns : String) (tr : Track)
    (h : ∀ e ∈ tr.trkpts,
      (findChild (qual ns "ele") e.children).isSome = true ∧
      (findChild (qual ns "time") e.children).isSome = true) :
    ∃ pts, mapNormalize ns tr.trkpts = some pts ∧
      track_xml ns tr = some (Elem.mk "gpx" gpxAttribs none
        [Elem.mk "trk" [] none
          [Elem.mk "name" [] (some (fmtPyDateTime tr.date)) [],
           Elem.mk "trkseg" [] none pts]]) ∧
      pts.length = tr.trkpts.length ∧
      pts.map trkptContent = tr.trkpts.map trkptContent := by
  obtain ⟨pts, hpts⟩ := mapNormalize_ok tr.trkpts h
  have hc := mapNormalize_content hpts
  exact ⟨pts, hpts, by simp [track_xml, hpts], hc.2, hc.1⟩

/-- C9 witness: a session of one complete point serializes in order. -/
theorem c9_witness :
    (∀ e ∈ (⟨1041379200, [tpB]⟩ : Track).trkpts,
      (findChild (qual gpxNs "ele") e.children).isSome = true ∧
      (findChild (qual gpxNs "time") e.children).isSome = true) ∧
    ∃ pts, mapNormalize gpxNs (⟨1041379200, [tpB]⟩ : Track).trkpts = some pts ∧
      track_xml gpxNs ⟨1041379200, [tpB]⟩ = some (Elem.mk "gpx" gpxAttribs none
        [Elem.mk "trk" [] none
          [Elem.mk "name" [] (some (fmtPyDateTime (1041379200 : Int))) [],
           Elem.mk "trkseg" [] none pts]]) ∧
      pts.length = (⟨1041379200, [tpB]⟩ : Track).trkpts.length ∧
      pts.map trkptContent = (⟨1041379200, [tpB]⟩ : Track).trkpts.map trkptContent :=
  ⟨by
    intro e he
    rw [List.mem_singleton] at he
    subst he
    exact ⟨rfl, rfl⟩,
   c9_serialize_with_ele gpxNs ⟨1041379200, [tpB]⟩ (by
    intro e he
    rw [List.mem_singleton] at he
    subst he
    exact ⟨rfl, rfl⟩)⟩

/-! Claims C2, C4 and C6: the main loop.  Step lemmas first. -/

theorem head_append_left {α : Type} {l : List α} (l2 : List α) (h : l ≠ []) :
    (l ++ l2).head? = l.head? := by
  cases l with
  | nil => exact absurd rfl h
  | cons a t => rfl

theorem step_err {cfg : Config} {s : RunState} {e : Elem} (h : s.err.isSome = true) :
    step cfg s e = s := by
  simp [step, h]

theorem foldl_err (cfg : Config) :
    ∀ (l : List Elem) (s : RunState), s.err.isSome = true →
      List.foldl (step cfg) s l = s := by
  intro l
  induction l with
  | nil => intro s _; rfl
  | cons e rest ih =>
    intro s h
    rw [List.foldl_cons, step_err h]
    exact ih s h

theorem keep_true_elim {cfg : Config} {e : Elem} (h : keep cfg e = .ok true) :
    trkpt_has_time cfg.ns e = true ∧
    ∃ p, trkpt_to_point e = .ok p ∧
      in_any_privacy_zone cfg.great_circle_distance p cfg.privacy_zones = false := by
  unfold keep at h
  by_cases hht : trkpt_has_time cfg.ns e
  · rw [if_pos hht] at h
    cases hp : trkpt_to_point e with
    | error er => rw [hp] at h; exact Except.noConfusion h
    | ok p =>
      rw [hp] at h
      injection h with h2
      exact ⟨hht, p, rfl, by simpa using h2⟩
  · rw [if_neg hht] at h
    injection h with h2
    exact Bool.noConfusion h2

theorem keep_false_step {cfg : Config} {e : Elem} (hk : keep cfg e = .ok false)
    (s : RunState) : step cfg s e = s := by
  by_cases hserr : s.err.isSome
  · exact step_err hserr
  · unfold keep at hk
    unfold step
    rw [if_neg hserr]
    by_cases hht : trkpt_has_time cfg.ns e
    · rw [if_pos hht] at hk ⊢
      cases hp : trkpt_to_point e with
      | error er => rw [hp] at hk; exact Except.noConfusion hk
      | ok p =>
        rw [hp] at hk
        injection hk with h2
        have hz : in_any_privacy_zone cfg.great_circle_distance p cfg.privacy_zones = true := by
          cases hz0 : in_any_privacy_zone cfg.great_circle_distance p cfg.privacy_zones with
          | false => rw [hz0] at h2; exact Bool.noConfusion h2
          | true => rfl
        simp [hz]
    · rw [if_neg hht]

theorem keep_error_step {cfg : Config} {e : Elem} {er : Err}
    (hk : keep cfg e = .error er) (s : RunState) (hse : s.err = none) :
    (step cfg s e).err = some er := by
  unfold keep at hk
  by_cases hht : trkpt_has_time cfg.ns e
  · rw [if_pos hht] at hk
    cases hp : trkpt_to_point e with
    | error er2 =>
      rw [hp] at hk
      injection hk with h2
      subst h2
      simp [step, hse, hht, hp]
    | ok p => rw [hp] at hk; exact Except.noConfusion hk
  · rw [if_neg hht] at hk; exact Except.noConfusion hk

theorem step_keep_true (cfg : Config) (s : RunState) (e : Elem)
    (hs : stateOk cfg s) (hk : keep cfg e = .ok true)
    (he : (step cfg s e).err = none) :
    stateOk cfg (step cfg s e) ∧ outPts (step cfg s e) = outPts s ++ [e] := by
  obtain ⟨herr, hem, hcurOk, hfresh⟩ := hs
  obtain ⟨hht, p, hp, hz⟩ := keep_true_elim hk
  cases hsd : sepDecision cfg s e with
  | error er =>
    exfalso
    have hserr : step cfg s e = { s with err := some er } := by
      unfold step
      simp [herr, hht, hp, hz, hsd]
    rw [hserr] at he
    exact Option.noConfusion he
  | ok sep =>
    have hstep : step cfg s e = appendPt (if sep then closeOpen cfg s e else s) e := by
      unfold step
      simp [herr, hht, hp, hz, hsd]
    cases sep with
    | false =>
      have hprev : ∃ pe, s.prev = some pe := by
        cases hpv : s.prev with
        | none =>
          unfold sepDecision at hsd
          rw [hpv] at hsd
          injection hsd with h2
          exact Bool.noConfusion h2
        | some pe => exact ⟨pe, rfl⟩
      obtain ⟨pe, hpv⟩ := hprev
      cases hcv : s.current with
      | none =>
        exact absurd ((hfresh hcv).1.symm.trans hpv) (by simp)
      | some tr =>
        obtain ⟨htrne, htranc⟩ := hcurOk tr hcv
        have hfin : step cfg s e = { s with current := some ⟨tr.date, tr.trkpts ++ [e]⟩, prev := some e } := by
          rw [hstep]
          show appendPt s e = _
          simp [appendPt, herr, hcv]
        rw [hfin]
        refine ⟨⟨herr, hem, ?_, by simp⟩, ?_⟩
        · intro tr' htr'
          simp only [Option.some.injEq] at htr'
          subst htr'
          refine ⟨by simp, ?_⟩
          obtain ⟨e0, t0, hhead, hdt, hdate⟩ := htranc
          exact ⟨e0, t0, by rw [head_append_left [e] htrne]; exact hhead, hdt, hdate⟩
        · simp [outPts, hcv]
    | true =>
      cases hcv : s.current with
      | none =>
        cases hdt : trkpt_datetime cfg.ns e with
        | error er =>
          exfalso
          have hserr : step cfg s e = { s with err := some er } := by
            rw [hstep]
            show appendPt (closeOpen cfg s e) e = _
            simp [closeOpen, hcv, herr, hdt, appendPt]
          rw [hserr] at he
          exact Option.noConfusion he
        | ok t0 =>
          have hfin : step cfg s e = { s with current := some ⟨offset_datetime t0 cfg.epoch_offset, [e]⟩, prev := some e } := by
            rw [hstep]
            show appendPt (closeOpen cfg s e) e = _
            simp [closeOpen, hcv, herr, hdt, appendPt]
          rw [hfin]
          refine ⟨⟨herr, hem, ?_, by simp⟩, ?_⟩
          · intro tr' htr'
            simp only [Option.some.injEq] at htr'
            subst htr'
            exact ⟨by simp, e, t0, rfl, hdt, rfl⟩
          · simp [outPts, hcv]
      | some tr =>
        obtain ⟨htrne, htranc⟩ := hcurOk tr hcv
        cases hxml : track_xml cfg.ns tr with
        | none =>
          exfalso
          have hserr : step cfg s e = { s with err := some Err.attributeError } := by
            rw [hstep]
            show appendPt (closeOpen cfg s e) e = _
            simp [closeOpen, hcv, writeTrack, hxml, appendPt, herr]
          rw [hserr] at he
          exact Option.noConfusion he
        | some x =>
          cases hdt : trkpt_datetime cfg.ns e with
          | error er =>
            exfalso
            have hserr : (step cfg s e).err = some er := by
              rw [hstep]
              show (appendPt (closeOpen cfg s e) e).err = _
              simp [closeOpen, hcv, writeTrack, hxml, appendPt, herr, hdt]
            rw [hserr] at he
            exact Option.noConfusion he
          | ok t0 =>
            have hfin : step cfg s e = { s with emitted := s.emitted ++ [(tr, get_unique_path s.used (path_base tr.date cfg.suffix), x)], used := s.used ++ [get_unique_path s.used (path_base tr.date cfg.suffix)], current := some ⟨offset_datetime t0 cfg.epoch_offset, [e]⟩, prev := some e } := by
              rw [hstep]
              show appendPt (closeOpen cfg s e) e = _
              simp [closeOpen, hcv, writeTrack, hxml, appendPt, herr, hdt]
            rw [hfin]
            refine ⟨⟨herr, ?_, ?_, by simp⟩, ?_⟩
            · intro em hm
              simp only [List.mem_append, List.mem_singleton] at hm
              rcases hm with hm | hm
              · exact hem em hm
              · subst hm
                exact ⟨htrne, htranc, hxml⟩
            · intro tr' htr'
              simp only [Option.some.injEq] at htr'
              subst htr'
              exact ⟨by simp, e, t0, rfl, hdt, rfl⟩
            · simp [outPts, hcv]

theorem fold_inv (cfg : Config) :
    ∀ (l : List Elem) (s : RunState), stateOk cfg s →
      (List.foldl (step cfg) s l).err = none →
      ∃ fl, filter_usable cfg l = .ok fl ∧
        stateOk cfg (List.foldl (step cfg) s l) ∧
        outPts (List.foldl (step cfg) s l) = outPts s ++ fl := by
  intro l
  induction l with
  | nil =>
    intro s hs _
    exact ⟨[], rfl, hs, by simp⟩
  | cons e rest ih =>
    intro s hs he
    rw [List.foldl_cons] at he ⊢
    cases hk : keep cfg e with
    | error er =>
      exfalso
      have h1 : (step cfg s e).err = some er := keep_error_step hk s hs.1
      rw [foldl_err cfg rest (step cfg s e) (by simp [h1])] at he
      rw [h1] at he
      exact Option.noConfusion he
    | ok b =>
      cases b with
      | false =>
        rw [keep_false_step hk s] at he ⊢
        obtain ⟨fl, hfl, hsOk, hout⟩ := ih s hs he
        exact ⟨fl, by simp [filter_usable, hk, hfl], hsOk, hout⟩
      | true =>
        have hse : (step cfg s e).err = none := by
          cases hse0 : (step cfg s e).err with
          | none => rfl
          | some er =>
            rw [foldl_err cfg rest (step cfg s e) (by simp [hse0])] at he
            rw [hse0] at he
            exact Option.noConfusion he
        obtain ⟨hsOk1, hout1⟩ := step_keep_true cfg s e hs hk hse
        obtain ⟨fl, hfl, hsOk, hout⟩ := ih (step cfg s e) hsOk1 he
        refine ⟨e :: fl, by simp [filter_usable, hk, hfl], hsOk, ?_⟩
        rw [hout, hout1]
        simp

theorem track_xml_inv {ns : String} {tr : Track} {x : Elem}
    (h : track_xml ns tr = some x) :
    ∃ pts, mapNormalize ns tr.trkpts = some pts ∧ trksegPts x = some pts ∧
      pts.map trkptContent = tr.trkpts.map trkptContent := by
  unfold track_xml at h
  cases hm : mapNormalize ns tr.trkpts with
  | none => simp only [hm] at h; exact Option.noConfusion h
  | some pts =>
    simp only [hm, Option.some.injEq] at h
    subst h
    exact ⟨pts, rfl, rfl, (mapNormalize_content hm).1⟩

theorem mainRun_ok_split (cfg : Config) (fs0 : List String) (input : List Elem)
    (h : (mainRun cfg fs0 input).err = none) :
    ∃ tr x fl,
      filter_usable cfg input = .ok fl ∧
      stateOk cfg (List.foldl (step cfg) (initState fs0) input) ∧
      (List.foldl (step cfg) (initState fs0) input).current = some tr ∧
      track_xml cfg.ns tr = some x ∧
      (mainRun cfg fs0 input).emitted =
        (List.foldl (step cfg) (initState fs0) input).emitted ++
          [(tr, get_unique_path (List.foldl (step cfg) (initState fs0) input).used
              (path_base tr.date cfg.suffix), x)] ∧
      outPts (List.foldl (step cfg) (initState fs0) input) = fl := by
  have hinit : stateOk cfg (initState fs0) := by
    refine ⟨rfl, ?_, ?_, fun _ => ⟨rfl, rfl⟩⟩
    · intro em hm
      simp [initState] at hm
    · intro tr htr
      simp [initState] at htr
  simp only [mainRun] at h
  by_cases hse : (List.foldl (step cfg) (initState fs0) input).err = none
  · rw [if_neg (by simp [hse])] at h
    obtain ⟨fl, hfl, hsOk, hout⟩ := fold_inv cfg input (initState fs0) hinit hse
    cases hcv : (List.foldl (step cfg) (initState fs0) input).current with
    | none =>
      exfalso
      rw [hcv] at h
      exact Option.noConfusion h
    | some tr =>
      rw [hcv] at h
      cases hxml : track_xml cfg.ns tr with
      | none =>
        exfalso
        unfold writeTrack at h
        simp only [hxml] at h
        exact Option.noConfusion h
      | some x =>
        refine ⟨tr, x, fl, hfl, hsOk, rfl, hxml, ?_, by simpa [outPts, initState] using hout⟩
        simp only [mainRun]
        rw [if_neg (by simp [hse]), hcv]
        unfold writeTrack
        simp only [hxml]
  · exfalso
    rw [if_pos (by cases hse0 : (List.foldl (step cfg) (initState fs0) input).err with
        | none => exact absurd hse0 hse
        | some er => simp [hse0])] at h
    exact hse h

/-- C2: on every run that finishes without an exception, concatenating the
    track points of all written sessions in emission order reproduces exactly
    the usable (timestamped, non-redacted) subsequence of the input in its
    original relative order, and every written session holds at least one
    point. -/
theorem c2_sessions_concat_filtered (cfg : Config) (fs0 : List String) (input : List Elem)
    (h : (mainRun cfg fs0 input).err = none) :
    ∃ fl, filter_usable cfg input = .ok fl ∧
      ((mainRun cfg fs0 input).emitted.map (fun em => em.1.trkpts)).flatten = fl ∧
      ∀ em ∈ (mainRun cfg fs0 input).emitted, em.1.trkpts ≠ [] := by
  obtain ⟨tr, x, fl, hfl, hsOk, hcv, hxml, hemit, hout⟩ := mainRun_ok_split cfg fs0 input h
  refine ⟨fl, hfl, ?_, ?_⟩
  · rw [hemit, ← hout]
    simp [outPts, hcv]
  · intro em hm
    rw [hemit] at hm
    simp only [List.mem_append, List.mem_singleton] at hm
    rcases hm with hm | hm
    · exact (hsOk.2.1 em hm).1
    · subst hm
      exact (hsOk.2.2.1 tr hcv).1

/-- C2 witness: a one-point run succeeds and reproduces its filtered input. -/
theorem c2_witness :
    (mainRun cfg0 [] [tpB]).err = none ∧
    ∃ fl, filter_usable cfg0 [tpB] = .ok fl ∧
      ((mainRun cfg0 [] [tpB]).emitted.map (fun em => em.1.trkpts)).flatten = fl ∧
      ∀ em ∈ (mainRun cfg0 [] [tpB]).emitted, em.1.trkpts ≠ [] :=
  ⟨rfl, c2_sessions_concat_filtered cfg0 [] [tpB] rfl⟩

/-- C4 counterexample: with epoch offset 1 the one-point run writes a session
    whose anchor date is the corrected timestamp, but the time text inside
    the written point is the original input text, whose parsed value is the
    uncorrected timestamp — the correction is not applied to the timestamp
    text written into output points, contradicting the claim. -/
theorem c4_counterexample :
    (mainRun cfg1 [] [tpB]).err = none ∧
    (mainRun cfg1 [] [tpB]).emitted.map (fun em => em.1.date) =
      [offset_datetime 1041379200 1] ∧
    (mainRun cfg1 [] [tpB]).emitted.map (fun em => trksegPts em.2.2) = [some [tpBn]] ∧
    timeTextPlain tpBn = some "2003-01-01T00:00:00Z" ∧
    parseTimestamp "2003-01-01T00:00:00Z" = some 1041379200 ∧
    offset_datetime 1041379200 1 ≠ 1041379200 :=
  ⟨rfl, rfl, rfl, rfl, rfl, by decide⟩

/-- C4 amended: the epoch correction is applied (with the run's single,
    fixed offset) to the timestamp from which each session's anchor date is
    derived, but not to the timestamps written into output points: every
    written session is anchored at offset_datetime of its first point's
    parsed time, while its output point subtrees keep their original
    attributes and texts — including the original, uncorrected time text. -/
theorem c4_correction_anchor_only (cfg : Config) (fs0 : List String) (input : List Elem)
    (h : (mainRun cfg fs0 input).err = none) :
    ∀ em ∈ (mainRun cfg fs0 input).emitted,
      anchored cfg em.1 ∧
      ∃ pts, trksegPts em.2.2 = some pts ∧
        pts.map trkptContent = em.1.trkpts.map trkptContent := by
  obtain ⟨tr, x, fl, hfl, hsOk, hcv, hxml, hemit, hout⟩ := mainRun_ok_split cfg fs0 input h
  intro em hm
  rw [hemit] at hm
  simp only [List.mem_append, List.mem_singleton] at hm
  rcases hm with hm | hm
  · obtain ⟨hne, hanc, hx⟩ := hsOk.2.1 em hm
    obtain ⟨pts, hpts, hseg, hcont⟩ := track_xml_inv hx
    exact ⟨hanc, pts, hseg, hcont⟩
  · subst hm
    obtain ⟨hne, hanc⟩ := hsOk.2.2.1 tr hcv
    obtain ⟨pts, hpts, hseg, hcont⟩ := track_xml_inv hxml
    exact ⟨hanc, pts, hseg, hcont⟩

/-- C4 witness: the amended statement at the concrete epoch-offset-1 run. -/
theorem c4_witness :
    (mainRun cfg1 [] [tpB]).err = none ∧
    ∀ em ∈ (mainRun cfg1 [] [tpB]).emitted,
      anchored cfg1 em.1 ∧
      ∃ pts, trksegPts em.2.2 = some pts ∧
        pts.map trkptContent = em.1.trkpts.map trkptContent :=
  ⟨rfl, c4_correction_anchor_only cfg1 [] [tpB] rfl⟩

/-- C6 amended: when every input point is skipped (no time child, or
    redacted), the final current_track.write dereferences None, so the run
    fails with an unhandled AttributeError — gpx_per_day.py defines no
    EmptyInputError — and zero session files are written. -/
theorem c6_empty_usable_attribute_error (cfg : Config) (fs0 : List String)
    (input : List Elem) (h : ∀ e ∈ input, keep cfg e = .ok false) :
    mainRun cfg fs0 input = { initState fs0 with err := some Err.attributeError } ∧
    (mainRun cfg fs0 input).emitted = [] := by
  have hfold : ∀ (l : List Elem) (s : RunState), (∀ e ∈ l, keep cfg e = .ok false) →
      List.foldl (step cfg) s l = s := by
    intro l
    induction l with
    | nil => intro s _; rfl
    | cons e rest ih =>
      intro s hl
      rw [List.foldl_cons, keep_false_step (hl e (by simp)) s]
      exact ih s (fun z hz => hl z (by simp [hz]))
  have h1 : mainRun cfg fs0 input = { initState fs0 with err := some Err.attributeError } := by
    simp only [mainRun]
    rw [hfold input (initState fs0) h]
    rfl
  exact ⟨h1, by rw [h1]; rfl⟩

/-- C6 witness: a run whose single point has no time child. -/
theorem c6_witness :
    (∀ e ∈ ([tpNoTime] : List Elem), keep cfg0 e = .ok false) ∧
    mainRun cfg0 [] [tpNoTime] = { initState [] with err := some Err.attributeError } ∧
    (mainRun cfg0 [] [tpNoTime]).emitted = [] := by
  have hk : ∀ e ∈ ([tpNoTime] : List Elem), keep cfg0 e = .ok false := by
    intro e he
    rw [List.mem_singleton] at he
    subst he
    rfl
  exact ⟨hk, (c6_empty_usable_attribute_error cfg0 [] [tpNoTime] hk).1,
    (c6_empty_usable_attribute_error cfg0 [] [tpNoTime] hk).2⟩

/-- C6 counterexample: on an empty stream the run does fail and writes
    nothing, but the failure is the generic AttributeError of calling write
    on None, not an EmptyInputError (the spec-modelled Err.emptyInputError
    value, which no code path of the script produces). -/
theorem c6_counterexample :
    (mainRun cfg0 [] []).err = some Err.attributeError ∧
    (mainRun cfg0 [] []).err ≠ some Err.emptyInputError ∧
    (mainRun cfg0 [] []).emitted = [] :=
  ⟨rfl, by decide, rfl⟩

end Gpx
